import Mathlib

/-!
Dapper: build/run orchestration (`file/file.go`)

A shallow embedding of the `Dapperfile` methods of `file/file.go`.  Every call of the
container engine (the `docker` binary) is appended to an explicit trace, and the engine's
answers are given by an arbitrary oracle that sees the whole history of earlier calls.
The inputs read from the host (working directory, terminal flag, user ids, the `git`
branch lookup, the random name suffix, temp-file creation, the JSON decoder of the standard
library) are fields of `Host`.  The accessor methods of `Context` live in a source file that
is not part of this development; they are taken as a parameter (`ContextMethods`).
-/

namespace Dapper

/-! ## Data model -/

/-- A Go `error` value, identified with its message. -/
abbrev Error := String

/-- One engine invocation: the arguments handed to the `docker` binary. -/
abbrev Call := List String

/-- The Go type `Context`, a `map[string]string`, as an association list with unique keys. -/
abbrev Context := List (String × String)

/-- Map assignment `c[k] = v`. -/
def Context.set (c : Context) (k v : String) : Context :=
  (k, v) :: c.filter (fun p => p.1 != k)

/-- Map lookup `v, ok := c[k]`. -/
def Context.get? (c : Context) (k : String) : Option String :=
  (c.find? (fun p => p.1 == k)).map Prod.snd

/-- The accessor methods of `Context` used by `file.go`.  Their definitions are not in the
sources at hand, so the development is parametric in them. -/
structure ContextMethods where
  Source : Context → String
  Cp : Context → String
  Socket : Context → Bool
  Mode : Context → String → String
  Env : Context → List String
  Output : Context → List String
  Shell : Context → String
  RunArgs : Context → List String

/-- The container engine seen from the tool: for a call made after the calls in `history`,
`status` is the error of the subprocess (`none` on exit status zero) and `output` its
combined output. -/
structure Engine where
  status : List Call → Call → Option Error
  output : List Call → Call → String

/-- Everything else the code reads from its surroundings. -/
structure Host where
  /-- Result of `os.Getwd()`. -/
  getwd : Except Error String
  /-- Result of `term.IsTerminal(0)`. -/
  isTerminal : Bool
  /-- Result of `os.Getuid()`. -/
  uid : Int
  /-- Result of `os.Getgid()`. -/
  gid : Int
  /-- Combined output of `git rev-parse --abbrev-ref HEAD`. -/
  gitOutput : String
  /-- Error of `git rev-parse --abbrev-ref HEAD`. -/
  gitErr : Option Error
  /-- Result of `randString()`. -/
  randString : String
  /-- Result of `ioutil.TempFile(dir, prefix)`: the name of the created file. -/
  tempFile : String → String → Except Error String
  /-- Decoder `json.Unmarshal(output, &envList)` for `envList []string`. -/
  unmarshal : String → Except Error (List String)

/-- The struct `Dapperfile`. -/
structure Dapperfile where
  File : String
  mode : String
  docker : String
  env : Context
  socket : Bool
  deriving DecidableEq

/-- Result of a method that may end in a Go run-time panic instead of returning.
Both carry the receiver and the engine trace at that point. -/
inductive Outcome (α : Type) where
  | ret (d : Dapperfile) (tr : List Call) (a : α)
  | crashed (d : Dapperfile) (tr : List Call)
  deriving DecidableEq

/-- The engine trace at the end of a method. -/
def Outcome.trace {α : Type} : Outcome α → List Call
  | .ret _ tr _ => tr
  | .crashed _ tr => tr

/-! ## Standard-library string functions -/

/-- Go `unicode.IsSpace`. -/
def isSpace (c : Char) : Bool :=
  let n := c.toNat
  n == 9 || n == 10 || n == 11 || n == 12 || n == 13 || n == 32 || n == 0x85 || n == 0xA0
    || n == 0x1680 || (0x2000 ≤ n && n ≤ 0x200a) || n == 0x2028 || n == 0x2029
    || n == 0x202f || n == 0x205f || n == 0x3000

/-- Go `strings.TrimSpace`. -/
def TrimSpace (s : String) : String :=
  String.mk ((s.data.dropWhile isSpace).rdropWhile isSpace)

/-- Go `filepath.Base` (Unix separators, no volume name). -/
def filepathBase (path : String) : String :=
  if path = "" then "."
  else
    let p := path.data.rdropWhile (fun c => c == '/')
    let p := p.rtakeWhile (fun c => c != '/')
    if p = [] then "/" else String.mk p

/-- Go `strings.SplitN(s, sep, 2)` for a one-character separator. -/
def SplitN2 (s : String) (sep : Char) : List String :=
  let before := s.data.takeWhile (fun c => c != sep)
  match s.data.dropWhile (fun c => c != sep) with
  | [] => [String.mk before]
  | _ :: after => [String.mk before, String.mk after]

/-- Splitting a character list at every occurrence of `sep`. -/
def splitChars (sep : Char) : List Char → List (List Char)
  | [] => [[]]
  | c :: cs =>
    if c = sep then [] :: splitChars sep cs
    else
      match splitChars sep cs with
      | [] => [[c]]
      | w :: ws => (c :: w) :: ws

/-- Go `strings.Split(s, sep)` for a one-character separator. -/
def Split (s : String) (sep : Char) : List String :=
  (splitChars sep s.data).map String.mk

/-! ## Engine invocation -/

/-- Method `exec`: run the engine with `args`, inheriting the standard streams. -/
def exec (E : Engine) (tr : List Call) (args : Call) : List Call × Option Error :=
  (tr ++ [args], E.status tr args)

/-- Method `execWithOutput`: run the engine with `args` and collect its combined output. -/
def execWithOutput (E : Engine) (tr : List Call) (args : Call) :
    List Call × String × Option Error :=
  (tr ++ [args], E.output tr args, E.status tr args)

/-- Method `run`. -/
def run (E : Engine) (tr : List Call) (args : List String) : List Call × Option Error :=
  exec E tr (["run"] ++ args)

/-- Method `IsBind`. -/
def IsBind (M : ContextMethods) (d : Dapperfile) : Bool :=
  M.Mode d.env d.mode == "bind"

/-- Method `SetSocket`. -/
def SetSocket (d : Dapperfile) (val : Bool) : Dapperfile :=
  { d with socket := val }

/-! ## Tag derivation -/

/-- Method `tag`. -/
def tag (H : Host) : String :=
  let cwd :=
    match H.getwd with
    | .ok cwd => filepathBase cwd
    | .error _ => "dapper-unknown"
  match H.gitErr with
  | some _ => cwd
  | none => cwd ++ ":" ++ TrimSpace H.gitOutput

/-! ## Run-argument assembly -/

/-- The adjacent pair `a`, `b` occurs in the argument list. -/
def hasPair (a b : String) : List String → Bool
  | [] => false
  | x :: rest => (x == a && rest.head? == some b) || hasPair a b rest

/-- The `-e` flags produced by the loop over the descriptor's env list. -/
def envFlags : List String → List String
  | [] => []
  | env :: rest => "-e" :: env :: envFlags rest

/-- The socket mount argument. -/
def dockerSock : String := "/var/run/docker.sock:/var/run/docker.sock"

/-- The workspace mount argument built in `runArgs` for working directory `wd`. -/
def workspaceMount (M : ContextMethods) (d : Dapperfile) (wd : String) : String :=
  (wd ++ "/" ++ M.Cp d.env) ++ ":" ++ M.Source d.env

/-- Method `runArgs`. -/
def runArgs (M : ContextMethods) (H : Host) (d : Dapperfile) (tag shell : String)
    (commandArgs : List String) : String × List String :=
  let name := (Split tag ':').headD "" ++ "-" ++ H.randString
  let args := ["-i", "--name", name]
  let args := if H.isTerminal then args ++ ["-t"] else args
  let args := if M.Socket d.env || d.socket then args ++ ["-v", dockerSock] else args
  let args :=
    if IsBind M d then
      match H.getwd with
      | .ok wd => args ++ ["-v", workspaceMount M d wd]
      | .error _ => args
    else args
  let args := args ++ ["-e", "DAPPER_UID=" ++ toString H.uid]
  let args := args ++ ["-e", "DAPPER_GID=" ++ toString H.gid]
  let args := (M.Env d.env).foldl (fun args env => args ++ ["-e", env]) args
  let args := if shell ≠ "" then (args ++ ["--entrypoint", shell]) ++ ["-e", "TERM"] else args
  let args := args ++ M.RunArgs d.env
  let args := args ++ [tag]
  let args :=
    if shell ≠ "" ∧ commandArgs.length = 0 then args ++ ["-"] else args ++ commandArgs
  (name, args)

/-! ## Build sequencing -/

/-- Result of the loop of `readEnv`: it runs to the end, or the access `parts[1]` is out
of range and the Go run time panics; both carry the map as filled so far. -/
inductive LoopResult where
  | done (env : Context)
  | indexOutOfRange (env : Context)
  deriving DecidableEq

/-- The loop of `readEnv` over the decoded list. -/
def readEnvLoop : Context → List String → LoopResult
  | env, [] => .done env
  | env, item :: rest =>
    let parts := SplitN2 item '='
    match parts[0]?, parts[1]? with
    | some k, some v => readEnvLoop (env.set k v) rest
    | _, _ => .indexOutOfRange env

/-- The inspect call of `readEnv`. -/
def inspectCall (tag : String) : Call :=
  ["inspect", "-f", "\x7b\x7bjson .ContainerConfig.Env\x7d\x7d", tag]

/-- Method `readEnv`. -/
def readEnv (E : Engine) (H : Host) (d : Dapperfile) (tr : List Call) (tag : String) :
    Outcome (Option Error) :=
  let args := inspectCall tag
  match execWithOutput E tr args with
  | (tr, _, some err) => .ret d tr (some err)
  | (tr, output, none) =>
    match H.unmarshal output with
    | .error err => .ret d tr (some err)
    | .ok envList =>
      match readEnvLoop [] envList with
      | .indexOutOfRange env => .crashed { d with env := env } tr
      | .done env => .ret { d with env := env } tr none

/-- Method `buildWithContent`.  The file system is not part of the model: the content
written to the temp file and its removal leave no mark on the engine trace. -/
def buildWithContent (E : Engine) (H : Host) (d : Dapperfile) (tr : List Call)
    (tag _content : String) : List Call × Option Error :=
  match H.tempFile "." d.File with
  | .error err => (tr, some err)
  | .ok tempfile => exec E tr ["build", "-t", tag, "-f", tempfile, "."]

/-- Method `build`. -/
def build (M : ContextMethods) (E : Engine) (H : Host) (d : Dapperfile) (tr : List Call) :
    Outcome (String × Option Error) :=
  let tag := tag H
  match exec E tr ["build", "-t", tag, "-f", d.File, "."] with
  | (tr, some err) => .ret d tr ("", some err)
  | (tr, none) =>
    match readEnv E H d tr tag with
    | .crashed d tr => .crashed d tr
    | .ret d tr (some err) => .ret d tr ("", some err)
    | .ret d tr none =>
      if !IsBind M d then
        let text := "FROM " ++ tag ++ "\nCOPY " ++ M.Cp d.env ++ " " ++ M.Source d.env
        match buildWithContent E H d tr tag text with
        | (tr, some err) => .ret d tr ("", some err)
        | (tr, none) => .ret d tr (tag, none)
      else .ret d tr (tag, none)

/-! ## Lifecycle -/

/-- The removal call issued by the deferred function of `Run`. -/
def rmCall (name : String) : Call := ["rm", "-fv", name]

/-- The copy-out call of `Run` for output path `i`. -/
def cpCall (name i : String) : Call := ["cp", name ++ ":" ++ i, "."]

/-- The output-extraction loop of `Run`. -/
def copyOutputs (E : Engine) (name : String) : List Call → List String → List Call × Option Error
  | tr, [] => (tr, none)
  | tr, i :: rest =>
    match exec E tr (cpCall name i) with
    | (tr, some err) => (tr, some err)
    | (tr, none) => copyOutputs E name tr rest

/-- The body of `Run` after the deferred removal has been registered. -/
def runBody (M : ContextMethods) (E : Engine) (d : Dapperfile) (tr : List Call)
    (name : String) (args : List String) : List Call × Option Error :=
  match run E tr args with
  | (tr, some err) => (tr, some err)
  | (tr, none) =>
    let output := M.Output d.env
    if !IsBind M d then copyOutputs E name tr output else (tr, none)

/-- Method `Run`. -/
def Run (M : ContextMethods) (E : Engine) (H : Host) (d : Dapperfile) (tr : List Call)
    (mode : String) (commandArgs : List String) : Outcome (Option Error) :=
  let d := { d with mode := mode }
  match build M E H d tr with
  | .crashed d tr => .crashed d tr
  | .ret d tr (_, some err) => .ret d tr (some err)
  | .ret d tr (tag, none) =>
    let (name, args) := runArgs M H d tag "" commandArgs
    let (tr, err) := runBody M E d tr name args
    -- deferred call, executed when the function returns
    let (tr, _, _) := execWithOutput E tr (rmCall name)
    .ret d tr err

/-- Method `Shell`. -/
def Shell (M : ContextMethods) (E : Engine) (H : Host) (d : Dapperfile) (tr : List Call)
    (mode : String) (_commandArgs : List String) : Outcome (Option Error) :=
  let d := { d with mode := mode }
  match build M E H d tr with
  | .crashed d tr => .crashed d tr
  | .ret d tr (_, some err) => .ret d tr (some err)
  | .ret d tr (tag, none) =>
    let (_, args) := runArgs M H d tag (M.Shell d.env) []
    let args := ["--rm"] ++ args
    let (tr, err) := run E tr args
    .ret d tr err

/-! ## Sample inputs -/

/-- The space-separated words of a string. -/
def words (s : String) : List String :=
  ((splitChars ' ' s.data).filter (fun w => w ≠ [])).map String.mk

/-- Modelled from the spec: the accessor methods of `Context`, whose source file is absent.
The spec names the keys `DAPPER_MODE` and `DAPPER_SOURCE` and the defaults `"bind"` for the
mode and `false` for the socket flag; the run mode given by the caller overrides the mode key.
The remaining key names and the space-separated list format are assumptions.  This instance
is only used to evaluate the code on concrete inputs. -/
def specContext : ContextMethods where
  Source c := (c.get? "DAPPER_SOURCE").getD "/source/"
  Cp c := (c.get? "DAPPER_CP").getD "."
  Socket c := c.get? "DAPPER_DOCKER_SOCKET" == some "true"
  Mode c mode := if mode ≠ "" then mode else (c.get? "DAPPER_MODE").getD "bind"
  Env c := words ((c.get? "DAPPER_ENV").getD "")
  Output c := words ((c.get? "DAPPER_OUTPUT").getD "")
  Shell c := (c.get? "SHELL").getD "/bin/bash"
  RunArgs c := words ((c.get? "DAPPER_RUN_ARGS").getD "")

/-- States of the sample decoder. -/
inductive JsonState where
  | start
  | first
  | str (acc : List Char)
  | next
  | more
  | done

/-- A decoder for JSON arrays of strings without escape sequences, such as
`["A=1","B=2"]`; any other text is an error.  It stands for `json.Unmarshal` in the sample
hosts. -/
def decodeStrings : JsonState → List String → List Char → Except Error (List String)
  | .done, acc, [] => .ok acc.reverse
  | _, _, [] => .error "unexpected end of JSON input"
  | .str s, acc, c :: cs =>
    if c = '"' then decodeStrings .next (String.mk s.reverse :: acc) cs
    else if c = '\\' then .error "escape sequences are not supported"
    else decodeStrings (.str (c :: s)) acc cs
  | st, acc, c :: cs =>
    if c = ' ' ∨ c = '\n' ∨ c = '\t' ∨ c = '\r' then decodeStrings st acc cs
    else
      match st, c with
      | .start, '[' => decodeStrings .first acc cs
      | .first, ']' => decodeStrings .done acc cs
      | .first, '"' => decodeStrings (.str []) acc cs
      | .next, ',' => decodeStrings .more acc cs
      | .next, ']' => decodeStrings .done acc cs
      | .more, '"' => decodeStrings (.str []) acc cs
      | _, _ => .error "invalid character"

/-- A host in the directory `/home/u/proj` on branch `main`. -/
def sampleHost : Host where
  getwd := .ok "/home/u/proj"
  isTerminal := false
  uid := 1000
  gid := 1000
  gitOutput := "main\n"
  gitErr := none
  randString := "abc"
  tempFile _ pre := .ok (pre ++ "123")
  unmarshal output := decodeStrings .start [] output.data

/-- The same host when the working directory cannot be read. -/
def sampleHostNoCwd : Host :=
  { sampleHost with getwd := .error "getwd: no such file or directory" }

/-- The same host when no temporary file can be created. -/
def sampleHostNoTemp : Host :=
  { sampleHost with tempFile := fun _ _ => .error "permission denied" }

/-- An engine whose every call succeeds and whose output is always `payload`. -/
def okEngine (payload : String) : Engine where
  status _ _ := none
  output _ _ := payload

/-- An engine whose calls succeed except the copy-out of the path `dist`. -/
def cpFailEngine (payload : String) : Engine where
  status _ call := if call = ["cp", "proj-abc:dist", "."] then some "exit status 1" else none
  output _ _ := payload

/-- An engine whose run step fails and whose other calls succeed. -/
def runFailEngine (payload : String) : Engine where
  status _ call := if call.head? = some "run" then some "exit status 2" else none
  output _ _ := payload

/-- A freshly looked-up `Dapperfile`. -/
def sampleFile : Dapperfile where
  File := "Dockerfile.dapper"
  mode := ""
  docker := "/usr/bin/docker"
  env := []
  socket := false

/-! ## Facts about run-argument assembly -/

/-- `strings.Split` never returns an empty slice, so the index `[0]` in `runArgs` is in
range. -/
theorem Split_ne_nil (s : String) (sep : Char) : Split s sep ≠ [] := by
  have h : ∀ cs : List Char, splitChars sep cs ≠ [] := by
    intro cs
    induction cs with
    | nil => simp [splitChars]
    | cons c cs ih =>
      simp only [splitChars]
      split
      · simp
      · split <;> simp
  simpa [Split] using h s.data

theorem foldl_envFlags (l : List String) (init : List String) :
    l.foldl (fun args env => args ++ ["-e", env]) init = init ++ envFlags l := by
  induction l generalizing init with
  | nil => simp [envFlags]
  | cons e es ih => simp [envFlags, ih]

/-- The argument list of `runArgs`, part by part. -/
theorem runArgs_snd (M : ContextMethods) (H : Host) (d : Dapperfile) (tag shell : String)
    (commandArgs : List String) :
    (runArgs M H d tag shell commandArgs).2 =
      ["-i", "--name", (runArgs M H d tag shell commandArgs).1]
        ++ (if H.isTerminal then ["-t"] else [])
        ++ (if M.Socket d.env || d.socket then ["-v", dockerSock] else [])
        ++ (if IsBind M d then
              (match H.getwd with
               | .ok wd => ["-v", workspaceMount M d wd]
               | .error _ => [])
            else [])
        ++ ("-e" :: ("DAPPER_UID=" ++ toString H.uid) :: "-e" :: ("DAPPER_GID=" ++ toString H.gid)
            :: (envFlags (M.Env d.env)
              ++ ((if shell ≠ "" then ["--entrypoint", shell, "-e", "TERM"] else [])
              ++ (M.RunArgs d.env ++ tag :: (if shell ≠ "" ∧ commandArgs = [] then ["-"]
                    else commandArgs))))) := by
  simp only [runArgs, foldl_envFlags, List.length_eq_zero]
  cases H.isTerminal <;> cases (M.Socket d.env || d.socket) <;> cases IsBind M d
    <;> cases H.getwd <;> by_cases hs : shell = ""
    <;> by_cases hc : commandArgs = [] <;> simp [hs, hc]

/-! ### Occurrences of an adjacent pair -/

theorem hasPair_iff_infix (a b : String) (l : List String) :
    hasPair a b l = true ↔ [a, b] <:+: l := by
  induction l with
  | nil => simp [hasPair]
  | cons x rest ih =>
    rw [hasPair, List.infix_cons_iff, Bool.or_eq_true, ih]
    refine or_congr ?_ Iff.rfl
    cases rest with
    | nil => simp
    | cons y ys =>
      simp only [List.head?_cons, Option.some.injEq, Bool.and_eq_true, beq_iff_eq,
        List.cons_prefix_cons, List.nil_prefix, and_true]
      constructor
      · rintro ⟨h1, h2⟩
        exact ⟨h1.symm, h2.symm⟩
      · rintro ⟨h1, h2⟩
        exact ⟨h1.symm, h2.symm⟩

theorem mem_of_hasPair {a b : String} {l : List String} (h : hasPair a b l = true) : b ∈ l := by
  induction l with
  | nil => simp [hasPair] at h
  | cons x rest ih =>
    simp only [hasPair, Bool.or_eq_true, Bool.and_eq_true, beq_iff_eq] at h
    rcases h with ⟨_, h⟩ | h
    · exact List.mem_cons_of_mem _ (List.mem_of_mem_head? h)
    · exact List.mem_cons_of_mem _ (ih h)

theorem hasPair_cons (a b x : String) (l : List String) :
    hasPair a b (x :: l) = true ↔ (x = a ∧ l.head? = some b) ∨ hasPair a b l = true := by
  simp [hasPair]

/-- Inside the `-e` flags no pair starting with `-v` begins, except possibly at the very end. -/
theorem hasPair_envFlags {b : String} (hb : b ≠ "-e") (env rest : List String)
    (h : hasPair "-v" b (envFlags env ++ rest) = true) :
    hasPair "-v" b rest = true ∨ rest.head? = some b := by
  induction env with
  | nil => left; simpa [envFlags] using h
  | cons e es ih =>
    simp only [envFlags, List.cons_append, hasPair_cons] at h
    rcases h with ⟨h, _⟩ | ⟨_, h⟩ | h
    · exact absurd h (by decide)
    · cases es with
      | nil => right; simpa [envFlags] using h
      | cons e' es' =>
        simp only [envFlags, List.cons_append, List.head?_cons, Option.some.injEq] at h
        exact absurd h.symm hb
    · exact ih h

/-- The front part of the argument list: up to the first `-e`, a pair `-v`, `b` is either
the socket mount or the workspace mount. -/
theorem hasPair_front {b : String} (name : String) (rest : List String) (tty sock : Bool)
    (mount : List String) (hm : mount = [] ∨ ∃ m, mount = ["-v", m])
    (hrest : hasPair "-v" b ("-e" :: rest) = false)
    (hb1 : b ≠ "-t") (hb2 : b ≠ "-v") (hb3 : b ≠ "-e") :
    hasPair "-v" b ("-i" :: "--name" :: name ::
        ((if tty then ["-t"] else []) ++ (if sock then ["-v", dockerSock] else [])
          ++ mount ++ "-e" :: rest)) = true
      ↔ (sock = true ∧ b = dockerSock) ∨ mount = ["-v", b] := by
  have h1 : ¬ ("-i" : String) = "-v" := by decide
  have h2 : ¬ ("--name" : String) = "-v" := by decide
  have h3 : ¬ ("-t" : String) = "-v" := by decide
  have h4 : ¬ dockerSock = "-v" := by decide
  have hb1' : ¬ ("-t" : String) = b := fun h => hb1 h.symm
  have hb2' : ¬ ("-v" : String) = b := fun h => hb2 h.symm
  have hb3' : ¬ ("-e" : String) = b := fun h => hb3 h.symm
  have hrest' : ¬ hasPair "-v" b ("-e" :: rest) = true := by simp [hrest]
  rcases hm with hm | ⟨m, hm⟩ <;> subst hm <;> cases tty <;> cases sock
    <;> simp only [if_true, if_false, List.append_nil, List.nil_append, List.cons_append,
      hasPair_cons,
      List.head?_cons, Option.some.injEq, h1, h2, h3, h4, hb1', hb2', hb3', hrest', false_and,
      and_false, false_or, or_false, true_and, and_true, Bool.false_eq_true, reduceCtorEq,
      List.cons.injEq]
  all_goals first
    | exact ⟨fun h => h.symm, fun h => h.symm⟩
    | exact or_congr ⟨fun h => h.symm, fun h => h.symm⟩ Iff.rfl

/-- The back part of the argument list, from the first `-e` on, holds no pair `-v`, `b`
unless `b` is one of the arguments passed through verbatim. -/
theorem hasPair_back {b : String} (uid gid shell tag : String)
    (env extra commandArgs : List String)
    (hb3 : b ≠ "-e") (hb4 : b ≠ "--entrypoint") (hb5 : b ≠ "-")
    (hex : b ∉ extra ++ [tag] ++ commandArgs) :
    hasPair "-v" b ("-e" :: uid :: "-e" :: gid :: (envFlags env
        ++ ((if shell ≠ "" then ["--entrypoint", shell, "-e", "TERM"] else [])
        ++ (extra ++ tag :: (if shell ≠ "" ∧ commandArgs = [] then ["-"]
              else commandArgs))))) = false := by
  have hb3' : ¬ ("-e" : String) = b := fun h => hb3 h.symm
  have hb4' : ¬ ("--entrypoint" : String) = b := fun h => hb4 h.symm
  have hq : b ∉ extra ++ tag :: (if shell ≠ "" ∧ commandArgs = [] then ["-"]
      else commandArgs) := by
    intro hmem
    apply hex
    simp only [List.mem_append, List.mem_cons, List.mem_singleton, List.not_mem_nil,
      or_false] at hmem ⊢
    rcases hmem with h | h | h
    · exact Or.inl (Or.inl h)
    · exact Or.inl (Or.inr h)
    · split at h
      · simp only [List.mem_singleton] at h
        exact absurd h hb5
      · exact Or.inr h
  generalize extra ++ tag :: (if shell ≠ "" ∧ commandArgs = [] then ["-"]
      else commandArgs) = q at hq
  have hq1 : ¬ hasPair "-v" b q = true := fun h => hq (mem_of_hasPair h)
  have hq2 : ¬ q.head? = some b := fun h => hq (List.mem_of_mem_head? h)
  have ht : ¬ hasPair "-v" b
        ((if shell ≠ "" then ["--entrypoint", shell, "-e", "TERM"] else []) ++ q) = true
      ∧ ¬ ((if shell ≠ "" then ["--entrypoint", shell, "-e", "TERM"] else []) ++ q).head?
          = some b := by
    by_cases hs : shell = ""
    · simp only [hs, ne_eq, not_true_eq_false, if_false, List.nil_append]
      exact ⟨hq1, hq2⟩
    · have h1 : ¬ ("--entrypoint" : String) = "-v" := by decide
      have h2 : ¬ ("-e" : String) = "-v" := by decide
      have h3 : ¬ ("TERM" : String) = "-v" := by decide
      simp only [hs, ne_eq, not_false_eq_true, if_true, List.cons_append, List.nil_append,
        hasPair_cons, List.head?_cons, Option.some.injEq, h1, h2, h3, hb3', hb4', hq1,
        false_and, and_false, or_false, not_false_eq_true, and_self]
      simp
  generalize (if shell ≠ "" then ["--entrypoint", shell, "-e", "TERM"] else []) ++ q = t at ht
  have he : ¬ hasPair "-v" b (envFlags env ++ t) = true := by
    intro h
    rcases hasPair_envFlags hb3 env t h with h | h
    · exact ht.1 h
    · exact ht.2 h
  have hh : ¬ (envFlags env ++ t).head? = some b := by
    cases env with
    | nil => simpa [envFlags] using ht.2
    | cons e es => simpa [envFlags] using hb3'
  generalize envFlags env ++ t = r at he hh
  have h2 : ¬ ("-e" : String) = "-v" := by decide
  rw [Bool.eq_false_iff]
  simp only [ne_eq, hasPair_cons, List.head?_cons, Option.some.injEq, h2, hb3', he, hh,
    false_and, and_false, or_false, not_false_eq_true]
  simp

/-- Where a pair `-v`, `b` can come from in the result of `runArgs`, for a `b` that is not
passed through verbatim (extra run arguments, tag, command arguments). -/
theorem hasPair_runArgs (M : ContextMethods) (H : Host) (d : Dapperfile) (tag shell : String)
    (commandArgs : List String) {b : String}
    (hb1 : b ≠ "-t") (hb2 : b ≠ "-v") (hb3 : b ≠ "-e") (hb4 : b ≠ "--entrypoint")
    (hb5 : b ≠ "-") (hex : b ∉ M.RunArgs d.env ++ [tag] ++ commandArgs) :
    hasPair "-v" b (runArgs M H d tag shell commandArgs).2 = true
      ↔ ((M.Socket d.env || d.socket) = true ∧ b = dockerSock)
        ∨ (IsBind M d = true ∧ ∃ wd, H.getwd = .ok wd ∧ b = workspaceMount M d wd) := by
  have hback := hasPair_back ("DAPPER_UID=" ++ toString H.uid) ("DAPPER_GID=" ++ toString H.gid)
    shell tag (M.Env d.env) (M.RunArgs d.env) commandArgs hb3 hb4 hb5 hex
  have hm : (if IsBind M d then
              (match H.getwd with
               | .ok wd => ["-v", workspaceMount M d wd]
               | .error _ => [])
            else []) = [] ∨ ∃ m, (if IsBind M d then
              (match H.getwd with
               | .ok wd => ["-v", workspaceMount M d wd]
               | .error _ => [])
            else []) = ["-v", m] := by
    cases IsBind M d
    · left; rfl
    · cases H.getwd with
      | error e => left; rfl
      | ok wd => right; exact ⟨_, rfl⟩
  have hfront := hasPair_front (runArgs M H d tag shell commandArgs).1 _ H.isTerminal
    (M.Socket d.env || d.socket) _ hm hback hb1 hb2 hb3
  rw [runArgs_snd]
  refine hfront.trans (or_congr Iff.rfl ?_)
  cases IsBind M d
  · simp
  · cases H.getwd with
    | error e => simp
    | ok wd => simp [eq_comm]

theorem colon_mem_workspaceMount (M : ContextMethods) (d : Dapperfile) (w : String) :
    ':' ∈ (workspaceMount M d w).data := by
  simp [workspaceMount, String.data_append]

theorem workspaceMount_ne (M : ContextMethods) (d : Dapperfile) (w s : String)
    (hs : ':' ∉ s.data) : workspaceMount M d w ≠ s := by
  intro h
  exact hs (h ▸ colon_mem_workspaceMount M d w)

theorem workspaceMount_inj (M : ContextMethods) (d : Dapperfile) {w w' : String}
    (h : workspaceMount M d w = workspaceMount M d w') : w = w' := by
  have h' := congrArg String.data h
  simp only [workspaceMount, String.data_append, List.append_assoc, List.append_left_inj,
    List.append_cancel_right_eq] at h'
  exact String.ext h'

/-- C4: the argument list returned by `runArgs` ends with the descriptor's extra run
arguments in order, then the image tag, then the trailing arguments; these are the single
literal `-` when the shell override is non-empty and `commandArgs` is empty, and `commandArgs`
itself otherwise.  In particular a shell override with `["echo", "hi"]` gives the trailing
arguments `["echo", "hi"]`. -/
theorem runArgs_ends_with_extra_tag_trailing (M : ContextMethods) (H : Host) (d : Dapperfile)
    (tag shell : String) (commandArgs : List String) :
    (∃ front : List String,
      (runArgs M H d tag shell commandArgs).2 =
        front ++ M.RunArgs d.env ++ [tag]
          ++ (if shell ≠ "" ∧ commandArgs = [] then ["-"] else commandArgs))
    ∧ (∃ front : List String,
        (runArgs M H d tag "/bin/sh" ["echo", "hi"]).2 =
          front ++ M.RunArgs d.env ++ [tag] ++ ["echo", "hi"]) := by
  refine ⟨?_, ?_⟩
  · rw [runArgs_snd]
    refine ⟨["-i", "--name", (runArgs M H d tag shell commandArgs).1]
        ++ (if H.isTerminal then ["-t"] else [])
        ++ (if M.Socket d.env || d.socket then ["-v", dockerSock] else [])
        ++ (if IsBind M d then
              (match H.getwd with
               | .ok wd => ["-v", workspaceMount M d wd]
               | .error _ => [])
            else [])
        ++ ("-e" :: ("DAPPER_UID=" ++ toString H.uid) :: "-e" :: ("DAPPER_GID=" ++ toString H.gid)
            :: (envFlags (M.Env d.env)
              ++ (if shell ≠ "" then ["--entrypoint", shell, "-e", "TERM"] else []))), ?_⟩
    simp only [List.append_assoc, List.cons_append, List.nil_append, List.singleton_append]
  · rw [runArgs_snd]
    refine ⟨["-i", "--name", (runArgs M H d tag "/bin/sh" ["echo", "hi"]).1]
        ++ (if H.isTerminal then ["-t"] else [])
        ++ (if M.Socket d.env || d.socket then ["-v", dockerSock] else [])
        ++ (if IsBind M d then
              (match H.getwd with
               | .ok wd => ["-v", workspaceMount M d wd]
               | .error _ => [])
            else [])
        ++ ("-e" :: ("DAPPER_UID=" ++ toString H.uid) :: "-e" :: ("DAPPER_GID=" ++ toString H.gid)
            :: (envFlags (M.Env d.env) ++ ["--entrypoint", "/bin/sh", "-e", "TERM"])), ?_⟩
    simp

/-- C2, the claim as stated fails: in bind mode with an unreadable working directory
`runArgs` adds no workspace mount, the argument list holds no `-v` at all. -/
theorem runArgs_bind_without_mount :
    IsBind specContext sampleFile = true
      ∧ (runArgs specContext sampleHostNoCwd sampleFile "proj:main" "" ["make"]).2
          = ["-i", "--name", "proj-abc", "-e", "DAPPER_UID=1000", "-e", "DAPPER_GID=1000",
              "proj:main", "make"] := by
  decide

/-- C2, amended: for every directory `w`, the pair `-v`, `<w>/<cp>:<source>` occurs in the
argument list returned by `runArgs` if and only if the resolved mode is `bind` and the
working-directory lookup succeeds with `w`; this for a mount argument that is not the socket
mount and is not among the arguments passed through verbatim (extra run arguments, tag,
command arguments). -/
theorem runArgs_workspace_mount_iff (M : ContextMethods) (H : Host) (d : Dapperfile)
    (tag shell : String) (commandArgs : List String) (w : String)
    (hsock : workspaceMount M d w ≠ dockerSock)
    (hex : workspaceMount M d w ∉ M.RunArgs d.env ++ [tag] ++ commandArgs) :
    hasPair "-v" (workspaceMount M d w) (runArgs M H d tag shell commandArgs).2 = true
      ↔ (IsBind M d = true ∧ H.getwd = .ok w) := by
  rw [hasPair_runArgs M H d tag shell commandArgs
    (workspaceMount_ne M d w "-t" (by decide)) (workspaceMount_ne M d w "-v" (by decide))
    (workspaceMount_ne M d w "-e" (by decide))
    (workspaceMount_ne M d w "--entrypoint" (by decide))
    (workspaceMount_ne M d w "-" (by decide)) hex]
  constructor
  · rintro (⟨_, h⟩ | ⟨hb, wd, hwd, h⟩)
    · exact absurd h hsock
    · exact ⟨hb, by rw [hwd, workspaceMount_inj M d h]⟩
  · rintro ⟨hb, hwd⟩
    exact Or.inr ⟨hb, w, hwd, rfl⟩

theorem runArgs_workspace_mount_iff_witness :
    workspaceMount specContext sampleFile "/home/u/proj" ≠ dockerSock
      ∧ workspaceMount specContext sampleFile "/home/u/proj"
          ∉ specContext.RunArgs sampleFile.env ++ ["proj:main"] ++ ["make"]
      ∧ (hasPair "-v" (workspaceMount specContext sampleFile "/home/u/proj")
            (runArgs specContext sampleHost sampleFile "proj:main" "" ["make"]).2 = true
          ↔ (IsBind specContext sampleFile = true
              ∧ sampleHost.getwd = .ok "/home/u/proj")) :=
  ⟨by decide, by decide,
    runArgs_workspace_mount_iff specContext sampleHost sampleFile "proj:main" "" ["make"]
      "/home/u/proj" (by decide) (by decide)⟩

/-- C3, the claim as stated fails: with the socket flag off in the descriptor and in the
session, extra run arguments `-v /var/run/docker.sock:/var/run/docker.sock` put the pair
into the argument list all the same. -/
theorem runArgs_socket_pair_from_extra :
    specContext.Socket [("DAPPER_RUN_ARGS", "-v /var/run/docker.sock:/var/run/docker.sock")]
        = false
      ∧ hasPair "-v" "/var/run/docker.sock:/var/run/docker.sock"
          (runArgs specContext sampleHost
            { sampleFile with
              mode := "cp"
              env := [("DAPPER_RUN_ARGS", "-v /var/run/docker.sock:/var/run/docker.sock")]
              socket := false }
            "proj:main" "" ["make"]).2 = true := by
  decide

/-- C3, amended: the adjacent pair `-v`, `/var/run/docker.sock:/var/run/docker.sock` occurs
in the argument list returned by `runArgs` if and only if the descriptor's socket flag or the
session's socket override is set; this whenever that argument is not among the arguments
passed through verbatim (extra run arguments, tag, command arguments) and is not the
workspace mount of bind mode. -/
theorem runArgs_socket_mount_iff (M : ContextMethods) (H : Host) (d : Dapperfile)
    (tag shell : String) (commandArgs : List String)
    (hws : ∀ wd, H.getwd = .ok wd → IsBind M d = true → workspaceMount M d wd ≠ dockerSock)
    (hex : dockerSock ∉ M.RunArgs d.env ++ [tag] ++ commandArgs) :
    hasPair "-v" dockerSock (runArgs M H d tag shell commandArgs).2 = true
      ↔ (M.Socket d.env = true ∨ d.socket = true) := by
  rw [hasPair_runArgs M H d tag shell commandArgs (by decide) (by decide) (by decide)
    (by decide) (by decide) hex, Bool.or_eq_true]
  constructor
  · rintro (⟨h, _⟩ | ⟨hb, wd, hwd, h⟩)
    · exact h
    · exact absurd h.symm (hws wd hwd hb)
  · intro h
    exact Or.inl ⟨h, rfl⟩

theorem runArgs_socket_mount_iff_witness :
    (∀ wd, sampleHost.getwd = .ok wd → IsBind specContext (SetSocket sampleFile true) = true
        → workspaceMount specContext (SetSocket sampleFile true) wd ≠ dockerSock)
      ∧ dockerSock ∉ specContext.RunArgs (SetSocket sampleFile true).env ++ ["proj:main"]
          ++ ["make"]
      ∧ (hasPair "-v" dockerSock
            (runArgs specContext sampleHost (SetSocket sampleFile true) "proj:main" ""
              ["make"]).2 = true
          ↔ (specContext.Socket (SetSocket sampleFile true).env = true
              ∨ (SetSocket sampleFile true).socket = true)) :=
  ⟨fun wd h _ => by cases h; decide, by decide,
    runArgs_socket_mount_iff specContext sampleHost (SetSocket sampleFile true)
      "proj:main" "" ["make"] (fun wd h _ => by cases h; decide) (by decide)⟩

/-! ## Facts about tag derivation -/

theorem rdropWhile_append_rtakeWhile (p : Char → Bool) (l : List Char) :
    l.rdropWhile p ++ l.rtakeWhile p = l := by
  have h := congrArg List.reverse (List.takeWhile_append_dropWhile p l.reverse)
  rw [List.reverse_append, List.reverse_reverse] at h
  exact h

/-- What `TrimSpace` removes is white space on both sides, and what it leaves neither starts
nor ends with white space. -/
theorem TrimSpace_spec (out : String) :
    ∃ l r : List Char, out.data = l ++ (TrimSpace out).data ++ r
      ∧ l.all isSpace = true ∧ r.all isSpace = true
      ∧ (TrimSpace out).data.head?.all (fun c => !isSpace c) = true
      ∧ (TrimSpace out).data.getLast?.all (fun c => !isSpace c) = true := by
  refine ⟨out.data.takeWhile isSpace, (out.data.dropWhile isSpace).rtakeWhile isSpace,
    ?_, ?_, ?_, ?_, ?_⟩
  · simp only [TrimSpace, List.append_assoc, rdropWhile_append_rtakeWhile,
      List.takeWhile_append_dropWhile]
  · rw [List.all_eq_true]
    exact fun c hc => List.mem_takeWhile_imp hc
  · rw [List.all_eq_true]
    exact fun c hc => List.mem_rtakeWhile_imp hc
  · simp only [TrimSpace]
    have hpre := List.rdropWhile_prefix isSpace (l := out.data.dropWhile isSpace)
    have hhead := List.head?_dropWhile_not isSpace out.data
    cases hd : (out.data.dropWhile isSpace).rdropWhile isSpace with
    | nil => simp
    | cons c cs =>
      rw [hd] at hpre
      obtain ⟨t, ht⟩ := hpre
      rw [← ht] at hhead
      simp only [List.cons_append, List.head?_cons, Option.all_some] at hhead ⊢
      simpa using hhead
  · simp only [TrimSpace]
    by_cases hne : (out.data.dropWhile isSpace).rdropWhile isSpace = []
    · simp [hne]
    · have hlast := List.rdropWhile_last_not isSpace (out.data.dropWhile isSpace) hne
      rw [List.getLast?_eq_getLast _ hne]
      simpa using hlast

/-- The last component of a path `dir/name` is `name`. -/
theorem filepathBase_last_component (dir name : String) (hne : name ≠ "")
    (hslash : '/' ∉ name.data) : filepathBase (dir ++ "/" ++ name) = name := by
  have hdata : (dir ++ "/" ++ name).data = (dir.data ++ ['/']) ++ name.data := by
    simp [String.data_append]
  have hn : name.data ≠ [] := fun h => hne (String.ext h)
  have hp : dir ++ "/" ++ name ≠ "" := by
    intro h
    have h' := congrArg String.data h
    rw [hdata] at h'
    simp at h'
  have hall : ∀ c ∈ name.data, (fun c : Char => c != '/') c = true := by
    intro c hc
    simp only [bne_iff_ne, ne_eq]
    rintro rfl
    exact hslash hc
  have hkeep : ((dir.data ++ ['/']) ++ name.data).rdropWhile (fun c => c == '/')
      = (dir.data ++ ['/']) ++ name.data := by
    rw [List.rdropWhile_eq_self_iff]
    intro hl
    rw [List.getLast_append_of_ne_nil hn]
    simp only [beq_iff_eq]
    intro h
    exact hslash (h ▸ List.getLast_mem hn)
  have htake : ((dir.data ++ ['/']) ++ name.data).rtakeWhile (fun c => c != '/')
      = name.data := by
    have hall' : ∀ c ∈ name.data.reverse, (fun c : Char => c != '/') c = true :=
      fun c hc => hall c (List.mem_reverse.mp hc)
    simp only [List.rtakeWhile, List.reverse_append, List.reverse_cons, List.reverse_nil,
      List.nil_append, List.singleton_append, List.append_assoc]
    rw [List.takeWhile_append_of_pos hall']
    simp
  simp only [filepathBase, hp, if_false, hdata, hkeep, htake, hn]

/-- What `filepathBase` returns: `.` for the empty path, `/` for a path of slashes only, and
otherwise the last slash-free stretch of the path, which is followed by trailing slashes only
and preceded by nothing or by a slash. -/
theorem filepathBase_spec (path : String) :
    (path = "" ∧ filepathBase path = ".")
      ∨ (path ≠ "" ∧ ∃ (pre : List Char) (n : Nat),
          path.data = pre ++ (filepathBase path).data ++ List.replicate n '/'
            ∧ ((filepathBase path = "/" ∧ pre = [])
              ∨ ('/' ∉ (filepathBase path).data ∧ filepathBase path ≠ ""
                  ∧ (pre = [] ∨ pre.getLast? = some '/')))) := by
  by_cases hp : path = ""
  · left
    exact ⟨hp, by simp [filepathBase, hp]⟩
  · right
    refine ⟨hp, ?_⟩
    have hpn : path.data ≠ [] := fun h => hp (String.ext h)
    have hsplit := rdropWhile_append_rtakeWhile (fun c => c == '/') path.data
    have hslashes : path.data.rtakeWhile (fun c => c == '/')
        = List.replicate (path.data.rtakeWhile (fun c => c == '/')).length '/' := by
      rw [List.eq_replicate_length]
      intro c hc
      simpa using List.mem_rtakeWhile_imp hc
    by_cases hq : path.data.rdropWhile (fun c => c == '/') = []
    · -- the path holds slashes only
      have hbase : filepathBase path = "/" := by
        simp [filepathBase, hp, hq]
      rw [hq, List.nil_append] at hsplit
      have hlen : 0 < (path.data.rtakeWhile (fun c => c == '/')).length := by
        rw [hsplit]
        exact List.length_pos.mpr hpn
      refine ⟨[], (path.data.rtakeWhile (fun c => c == '/')).length - 1, ?_, Or.inl ⟨hbase, rfl⟩⟩
      have hcons : List.replicate (path.data.rtakeWhile (fun c => c == '/')).length '/'
          = '/' :: List.replicate ((path.data.rtakeWhile (fun c => c == '/')).length - 1) '/' := by
        rw [← List.replicate_succ]
        congr 1
        omega
      have hdata : path.data
          = '/' :: List.replicate ((path.data.rtakeWhile (fun c => c == '/')).length - 1) '/' := by
        rw [← hcons, ← hslashes]
        exact hsplit.symm
      rw [hbase]
      exact hdata
    · -- the path has a last component
      have hlast := List.rdropWhile_last_not (fun c => c == '/') path.data hq
      have hsplit2 := rdropWhile_append_rtakeWhile (fun c => c != '/')
        (path.data.rdropWhile (fun c => c == '/'))
      have hs : (path.data.rdropWhile (fun c => c == '/')).rtakeWhile (fun c => c != '/')
          ≠ [] := by
        rw [Ne, List.rtakeWhile_eq_nil_iff]
        intro h
        have h' := h hq
        simp only [bne_iff_ne, ne_eq, not_not] at h'
        exact hlast (by simp [h'])
      have hbase : filepathBase path = String.mk
          ((path.data.rdropWhile (fun c => c == '/')).rtakeWhile (fun c => c != '/')) := by
        simp [filepathBase, hp, hs]
      refine ⟨(path.data.rdropWhile (fun c => c == '/')).rdropWhile (fun c => c != '/'),
        (path.data.rtakeWhile (fun c => c == '/')).length, ?_, Or.inr ⟨?_, ?_, ?_⟩⟩
      · rw [hbase, ← hslashes]
        simp only
        rw [hsplit2, hsplit]
      · rw [hbase]
        intro hmem
        have := List.mem_rtakeWhile_imp hmem
        simp at this
      · rw [hbase]
        intro h
        exact hs (congrArg String.data h)
      · by_cases hpre : (path.data.rdropWhile (fun c => c == '/')).rdropWhile
            (fun c => c != '/') = []
        · exact Or.inl hpre
        · right
          have hl := List.rdropWhile_last_not (fun c => c != '/')
            (path.data.rdropWhile (fun c => c == '/')) hpre
          rw [List.getLast?_eq_getLast _ hpre]
          simp only [bne_iff_ne, ne_eq, not_not] at hl
          rw [hl]

/-- C7: `tag` returns the last path component of the working directory alone when the
branch lookup fails, and `<base-name>:<branch>` with the white space around the branch
output trimmed when it succeeds; the base name is the literal `dapper-unknown` when the
working directory cannot be read.  For the working directory `proj`, a failed lookup gives
`proj` and the branch output `main` followed by a newline gives `proj:main`.  The last path
component is spelled out: for a working directory `dir/name` it is `name`, and in general it
is the last slash-free stretch of the path before its trailing slashes (`.` for the empty
path, `/` for a path of slashes only).  The trimmed branch is the output without the white
space at its two ends. -/
theorem tag_derivation (H : Host) (cwd out : String) (e e' : Error) :
    tag { H with getwd := .ok cwd, gitErr := some e } = filepathBase cwd
      ∧ tag { H with getwd := .ok cwd, gitErr := none, gitOutput := out }
          = filepathBase cwd ++ ":" ++ TrimSpace out
      ∧ tag { H with getwd := .error e', gitErr := some e } = "dapper-unknown"
      ∧ tag { H with getwd := .error e', gitErr := none, gitOutput := out }
          = "dapper-unknown:" ++ TrimSpace out
      ∧ tag { H with getwd := .ok "proj", gitErr := some e } = "proj"
      ∧ tag { H with getwd := .ok "proj", gitErr := none, gitOutput := "main\n" } = "proj:main"
      ∧ tag { H with getwd := .ok "/home/u/proj", gitErr := none, gitOutput := " main\n" }
          = "proj:main"
      ∧ (∃ l r : List Char, out.data = l ++ (TrimSpace out).data ++ r
          ∧ l.all isSpace = true ∧ r.all isSpace = true
          ∧ (TrimSpace out).data.head?.all (fun c => !isSpace c) = true
          ∧ (TrimSpace out).data.getLast?.all (fun c => !isSpace c) = true)
      ∧ (∀ dir name : String, name ≠ "" → '/' ∉ name.data →
          tag { H with getwd := .ok (dir ++ "/" ++ name), gitErr := some e } = name
            ∧ tag { H with getwd := .ok (dir ++ "/" ++ name), gitErr := none, gitOutput := out }
                = name ++ ":" ++ TrimSpace out)
      ∧ ((cwd = "" ∧ tag { H with getwd := .ok cwd, gitErr := some e } = ".")
          ∨ (cwd ≠ "" ∧ ∃ (pre : List Char) (n : Nat),
              cwd.data = pre ++ (tag { H with getwd := .ok cwd, gitErr := some e }).data
                  ++ List.replicate n '/'
                ∧ ((tag { H with getwd := .ok cwd, gitErr := some e } = "/" ∧ pre = [])
                  ∨ ('/' ∉ (tag { H with getwd := .ok cwd, gitErr := some e }).data
                      ∧ tag { H with getwd := .ok cwd, gitErr := some e } ≠ ""
                      ∧ (pre = [] ∨ pre.getLast? = some '/'))))) := by
  refine ⟨rfl, rfl, rfl, ?_, ?_, ?_, ?_, TrimSpace_spec out, ?_, filepathBase_spec cwd⟩
  · simp only [tag]
    rw [String.append_assoc]
    rfl
  · simp only [tag]
    decide
  · simp only [tag]
    decide
  · simp only [tag]
    decide
  · intro dir name hne hslash
    constructor <;> simp only [tag, filepathBase_last_component dir name hne hslash]

/-! ## Facts about build sequencing -/

/-- A returning `readEnv` has made exactly the inspect call and has changed nothing of the
receiver but its descriptor. -/
theorem readEnv_ret {E : Engine} {H : Host} {d d1 : Dapperfile} {tr tr1 : List Call}
    {tag : String} {r : Option Error} (h : readEnv E H d tr tag = .ret d1 tr1 r) :
    tr1 = tr ++ [inspectCall tag] ∧ d1.File = d.File ∧ d1.mode = d.mode
      ∧ d1.socket = d.socket := by
  simp only [readEnv, execWithOutput] at h
  split at h
  · rename_i heq
    simp only [Prod.mk.injEq] at heq
    obtain ⟨rfl, -, -⟩ := heq
    simp only [Outcome.ret.injEq] at h
    obtain ⟨rfl, rfl, -⟩ := h
    exact ⟨rfl, rfl, rfl, rfl⟩
  · rename_i heq
    simp only [Prod.mk.injEq] at heq
    obtain ⟨rfl, -, -⟩ := heq
    split at h
    · simp only [Outcome.ret.injEq] at h
      obtain ⟨rfl, rfl, -⟩ := h
      exact ⟨rfl, rfl, rfl, rfl⟩
    · split at h
      · exact absurd h (by simp)
      · simp only [Outcome.ret.injEq] at h
        obtain ⟨rfl, rfl, -⟩ := h
        exact ⟨rfl, rfl, rfl, rfl⟩

/-- The primary build call of `build`. -/
theorem build_trace_of_readEnv (M : ContextMethods) (E : Engine) (H : Host)
    (d d1 : Dapperfile) (tr tr1 : List Call)
    (hprimary : E.status tr ["build", "-t", tag H, "-f", d.File, "."] = none)
    (hread : readEnv E H d (tr ++ [["build", "-t", tag H, "-f", d.File, "."]]) (tag H)
      = .ret d1 tr1 none) :
    build M E H d tr =
      if IsBind M d1 then .ret d1 tr1 (tag H, none)
      else
        match H.tempFile "." d.File with
        | .error err => .ret d1 tr1 ("", some err)
        | .ok tempfile =>
          match E.status tr1 ["build", "-t", tag H, "-f", tempfile, "."] with
          | some err => .ret d1 (tr1 ++ [["build", "-t", tag H, "-f", tempfile, "."]]) ("", some err)
          | none => .ret d1 (tr1 ++ [["build", "-t", tag H, "-f", tempfile, "."]]) (tag H, none) := by
  have hfile := (readEnv_ret hread).2.1
  simp only [build, exec, hprimary, hread, buildWithContent, hfile]
  cases IsBind M d1
  · simp only [Bool.not_false, if_true, Bool.false_eq_true, if_false]
    cases H.tempFile "." d.File with
    | error err => rfl
    | ok f =>
      simp only
      cases E.status tr1 ["build", "-t", tag H, "-f", f, "."] <;> rfl
  · simp

/-- C6, the claim as stated fails: in a non-bind mode, with the primary build and the
inspect step succeeding, no second engine build is invoked when the temporary file for the
derived build definition cannot be created. -/
theorem build_copy_mode_without_second_build :
    IsBind specContext { sampleFile with mode := "cp" } = false
      ∧ build specContext (okEngine "[]") sampleHostNoTemp { sampleFile with mode := "cp" } []
          = .ret { sampleFile with mode := "cp" }
              [["build", "-t", "proj:main", "-f", "Dockerfile.dapper", "."],
               ["inspect", "-f", "\x7b\x7bjson .ContainerConfig.Env\x7d\x7d", "proj:main"]]
              ("", some "permission denied") := by
  decide

/-- C6, amended: when the primary image build and the inspect/parse step of `build` succeed,
a second engine build is invoked if and only if the resolved mode is not `bind` and the
temporary build-definition file could be created; it then builds under the same tag as the
primary build, and in bind mode the engine invocations of `build` are exactly one build
followed by one inspect. -/
theorem build_engine_calls (M : ContextMethods) (E : Engine) (H : Host)
    (d d1 : Dapperfile) (tr tr1 : List Call)
    (hprimary : E.status tr ["build", "-t", tag H, "-f", d.File, "."] = none)
    (hread : readEnv E H d (tr ++ [["build", "-t", tag H, "-f", d.File, "."]]) (tag H)
      = .ret d1 tr1 none) :
    (build M E H d tr).trace =
      tr ++ [["build", "-t", tag H, "-f", d.File, "."], inspectCall (tag H)]
        ++ (if IsBind M d1 then []
            else
              match H.tempFile "." d.File with
              | .ok tempfile => [["build", "-t", tag H, "-f", tempfile, "."]]
              | .error _ => []) := by
  rw [build_trace_of_readEnv M E H d d1 tr tr1 hprimary hread]
  obtain ⟨rfl, -⟩ := readEnv_ret hread
  cases IsBind M d1
  · simp only [Bool.false_eq_true, if_false]
    cases H.tempFile "." d.File with
    | error err => simp [Outcome.trace]
    | ok f =>
      simp only
      cases E.status (tr ++ [["build", "-t", tag H, "-f", d.File, "."]] ++ [inspectCall (tag H)])
        ["build", "-t", tag H, "-f", f, "."] <;> simp [Outcome.trace]
  · simp [Outcome.trace]

theorem build_engine_calls_witness :
    (okEngine "[]").status [] ["build", "-t", tag sampleHost, "-f", "Dockerfile.dapper", "."] = none
      ∧ readEnv (okEngine "[]") sampleHost { sampleFile with mode := "cp" }
          ([] ++ [["build", "-t", tag sampleHost, "-f", "Dockerfile.dapper", "."]])
          (tag sampleHost)
          = .ret { sampleFile with mode := "cp" }
              [["build", "-t", "proj:main", "-f", "Dockerfile.dapper", "."],
               inspectCall "proj:main"] none
      ∧ (build specContext (okEngine "[]") sampleHost { sampleFile with mode := "cp" } []).trace =
          [] ++ [["build", "-t", tag sampleHost, "-f", "Dockerfile.dapper", "."],
                 inspectCall (tag sampleHost)]
            ++ (if IsBind specContext { sampleFile with mode := "cp" } then []
                else
                  match sampleHost.tempFile "." "Dockerfile.dapper" with
                  | .ok tempfile => [["build", "-t", tag sampleHost, "-f", tempfile, "."]]
                  | .error _ => []) :=
  ⟨rfl, by decide,
    build_engine_calls specContext (okEngine "[]") sampleHost { sampleFile with mode := "cp" }
      { sampleFile with mode := "cp" } []
      [["build", "-t", "proj:main", "-f", "Dockerfile.dapper", "."], inspectCall "proj:main"]
      rfl (by decide)⟩

/-- A returning `build` has appended only build and inspect calls to the trace. -/
theorem build_ret_calls {M : ContextMethods} {E : Engine} {H : Host} {d d1 : Dapperfile}
    {tr tr1 : List Call} {r : String × Option Error}
    (h : build M E H d tr = .ret d1 tr1 r) :
    ∃ calls : List Call, tr1 = tr ++ calls
      ∧ ∀ c ∈ calls, c.head? = some "build" ∨ c.head? = some "inspect" := by
  simp only [build, exec] at h
  cases hp : E.status tr ["build", "-t", tag H, "-f", d.File, "."] with
  | some err =>
    simp only [hp, Outcome.ret.injEq] at h
    obtain ⟨-, rfl, -⟩ := h
    exact ⟨[["build", "-t", tag H, "-f", d.File, "."]], rfl, by simp⟩
  | none =>
    simp only [hp] at h
    cases hr : readEnv E H d (tr ++ [["build", "-t", tag H, "-f", d.File, "."]]) (tag H) with
    | crashed d2 tr2 => simp [hr] at h
    | ret d2 tr2 r2 =>
      obtain ⟨rfl, -⟩ := readEnv_ret hr
      cases r2 with
      | some err =>
        simp only [hr, Outcome.ret.injEq] at h
        obtain ⟨-, rfl, -⟩ := h
        exact ⟨[["build", "-t", tag H, "-f", d.File, "."], inspectCall (tag H)],
          by simp, by simp [inspectCall]⟩
      | none =>
        simp only [hr, buildWithContent, exec] at h
        cases hb : IsBind M d2
        · simp only [hb, Bool.not_false, if_true] at h
          cases ht : H.tempFile "." d2.File with
          | error err =>
            simp only [ht, Outcome.ret.injEq] at h
            obtain ⟨-, rfl, -⟩ := h
            exact ⟨[["build", "-t", tag H, "-f", d.File, "."], inspectCall (tag H)],
              by simp, by simp [inspectCall]⟩
          | ok f =>
            simp only [ht] at h
            refine ⟨[["build", "-t", tag H, "-f", d.File, "."], inspectCall (tag H),
              ["build", "-t", tag H, "-f", f, "."]], ?_, by simp [inspectCall]⟩
            cases hs : E.status (tr ++ [["build", "-t", tag H, "-f", d.File, "."]]
                ++ [inspectCall (tag H)]) ["build", "-t", tag H, "-f", f, "."] with
            | none =>
              simp only [hs, Outcome.ret.injEq] at h
              obtain ⟨-, rfl, -⟩ := h
              simp
            | some err =>
              simp only [hs, Outcome.ret.injEq] at h
              obtain ⟨-, rfl, -⟩ := h
              simp
        · simp only [hb, Bool.not_true, Bool.false_eq_true, if_false, Outcome.ret.injEq] at h
          obtain ⟨-, rfl, -⟩ := h
          exact ⟨[["build", "-t", tag H, "-f", d.File, "."], inspectCall (tag H)],
            by simp, by simp [inspectCall]⟩

/-! ## Facts about the lifecycle -/

/-- `Run` after a successful `build`: the body, then the deferred removal. -/
theorem Run_of_build (M : ContextMethods) (E : Engine) (H : Host) (d d1 : Dapperfile)
    (tr tr1 : List Call) (mode t : String) (commandArgs : List String)
    (hbuild : build M E H { d with mode := mode } tr = .ret d1 tr1 (t, none)) :
    Run M E H d tr mode commandArgs =
      .ret d1
        ((runBody M E d1 tr1 (runArgs M H d1 t "" commandArgs).1
            (runArgs M H d1 t "" commandArgs).2).1
          ++ [rmCall (runArgs M H d1 t "" commandArgs).1])
        (runBody M E d1 tr1 (runArgs M H d1 t "" commandArgs).1
            (runArgs M H d1 t "" commandArgs).2).2 := by
  simp only [Run, hbuild, execWithOutput]

/-- The copy loop issues the copy calls of a prefix of the output paths, in order. -/
theorem copyOutputs_trace (E : Engine) (name : String) (tr : List Call) (outs : List String) :
    ∃ k, k ≤ outs.length
      ∧ (copyOutputs E name tr outs).1 = tr ++ (outs.take k).map (cpCall name) := by
  induction outs generalizing tr with
  | nil => exact ⟨0, le_refl _, by simp [copyOutputs]⟩
  | cons i rest ih =>
    simp only [copyOutputs, exec]
    cases hs : E.status tr (cpCall name i) with
    | some err => exact ⟨1, by simp, by simp⟩
    | none =>
      obtain ⟨k, hk, hk'⟩ := ih (tr ++ [cpCall name i])
      exact ⟨k + 1, by simpa using hk, by simp [hk']⟩

/-- When every copy succeeds, every output path is copied and the loop reports success. -/
theorem copyOutputs_all_ok (E : Engine) (name : String) (tr : List Call) (outs : List String)
    (hok : ∀ j i, outs[j]? = some i →
      E.status (tr ++ (outs.take j).map (cpCall name)) (cpCall name i) = none) :
    copyOutputs E name tr outs = (tr ++ outs.map (cpCall name), none) := by
  induction outs generalizing tr with
  | nil => simp [copyOutputs]
  | cons i rest ih =>
    have h0 := hok 0 i (by simp)
    simp only [List.take_zero, List.map_nil, List.append_nil] at h0
    simp only [copyOutputs, exec, h0]
    rw [ih (tr ++ [cpCall name i])]
    · simp
    · intro j i' hj
      have := hok (j + 1) i' (by simpa using hj)
      simpa using this

/-- When the copy of the `k`-th output path is the first to fail, the loop stops there and
returns that failure. -/
theorem copyOutputs_first_failure (E : Engine) (name : String) (tr : List Call)
    (outs : List String) (k : Nat) (i : String) (e : Error)
    (hk : outs[k]? = some i)
    (hok : ∀ j i', j < k → outs[j]? = some i' →
      E.status (tr ++ (outs.take j).map (cpCall name)) (cpCall name i') = none)
    (hfail : E.status (tr ++ (outs.take k).map (cpCall name)) (cpCall name i) = some e) :
    copyOutputs E name tr outs = (tr ++ (outs.take (k + 1)).map (cpCall name), some e) := by
  induction outs generalizing tr k with
  | nil => simp at hk
  | cons i0 rest ih =>
    cases k with
    | zero =>
      simp only [List.getElem?_cons_zero, Option.some.injEq] at hk
      subst hk
      simp only [List.take_zero, List.map_nil, List.append_nil] at hfail
      simp [copyOutputs, exec, hfail]
    | succ k =>
      have h0 := hok 0 i0 (Nat.succ_pos k) (by simp)
      simp only [List.take_zero, List.map_nil, List.append_nil] at h0
      simp only [copyOutputs, exec, h0]
      rw [ih (tr ++ [cpCall name i0]) k (by simpa using hk)]
      · simp
      · intro j i' hj hji
        have := hok (j + 1) i' (Nat.succ_lt_succ hj) (by simpa using hji)
        simpa using this
      · simpa using hfail

/-- The calls of the body of `Run`: the run call, then copy calls for a prefix of the
output paths. -/
theorem runBody_trace (M : ContextMethods) (E : Engine) (d : Dapperfile) (tr : List Call)
    (name : String) (args : List String) :
    ∃ k, k ≤ (M.Output d.env).length
      ∧ (runBody M E d tr name args).1
          = tr ++ ["run" :: args] ++ ((M.Output d.env).take k).map (cpCall name) := by
  simp only [runBody, run, exec, List.singleton_append]
  cases E.status tr ("run" :: args) with
  | some err => exact ⟨0, Nat.zero_le _, by simp⟩
  | none =>
    cases IsBind M d
    · simpa using copyOutputs_trace E name (tr ++ ["run" :: args]) (M.Output d.env)
    · exact ⟨0, Nat.zero_le _, by simp⟩

theorem runArgs_head (M : ContextMethods) (H : Host) (d : Dapperfile) (tag shell : String)
    (commandArgs : List String) :
    ∃ rest, (runArgs M H d tag shell commandArgs).2
      = "-i" :: "--name" :: (runArgs M H d tag shell commandArgs).1 :: rest :=
  ⟨_, runArgs_snd M H d tag shell commandArgs⟩

/-- C1: in every `Run` in which `build` succeeds, whatever the engine answers to the run
step, the sequence of engine invocations holds exactly one container-removal call
`rm -fv <name>`, and its name is the generated name passed after `--name` in the run
invocation. -/
theorem Run_removes_container_once (M : ContextMethods) (E : Engine) (H : Host)
    (d d1 : Dapperfile) (tr1 : List Call) (mode t : String) (commandArgs : List String)
    (hbuild : build M E H { d with mode := mode } [] = .ret d1 tr1 (t, none)) :
    ∃ (name : String) (rest : List String) (cps : List Call),
      name = (runArgs M H d1 t "" commandArgs).1
        ∧ (Run M E H d [] mode commandArgs).trace
          = tr1 ++ ["run" :: "-i" :: "--name" :: name :: rest] ++ cps ++ [["rm", "-fv", name]]
        ∧ (∀ c ∈ cps, c.head? = some "cp")
        ∧ (Run M E H d [] mode commandArgs).trace.filter (fun c => c.head? == some "rm")
            = [["rm", "-fv", name]] := by
  obtain ⟨rest, hrest⟩ := runArgs_head M H d1 t "" commandArgs
  obtain ⟨k, -, hk⟩ := runBody_trace M E d1 tr1 (runArgs M H d1 t "" commandArgs).1
    (runArgs M H d1 t "" commandArgs).2
  obtain ⟨calls, hcalls, hheads⟩ := build_ret_calls hbuild
  have hcps : ∀ c ∈ ((M.Output d1.env).take k).map
      (cpCall (runArgs M H d1 t "" commandArgs).1), c.head? = some "cp" := by
    intro c hc
    obtain ⟨i, -, rfl⟩ := List.mem_map.mp hc
    rfl
  have htrace : (Run M E H d [] mode commandArgs).trace
      = tr1 ++ ["run" :: "-i" :: "--name" :: (runArgs M H d1 t "" commandArgs).1 :: rest]
        ++ ((M.Output d1.env).take k).map (cpCall (runArgs M H d1 t "" commandArgs).1)
        ++ [["rm", "-fv", (runArgs M H d1 t "" commandArgs).1]] := by
    rw [Run_of_build M E H d d1 [] tr1 mode t commandArgs hbuild, Outcome.trace, hk, hrest]
    rfl
  refine ⟨_, rest, _, rfl, htrace, hcps, ?_⟩
  rw [htrace]
  have h1 : tr1.filter (fun c => c.head? == some "rm") = [] := by
    rw [List.filter_eq_nil_iff]
    intro c hc
    rw [hcalls, List.nil_append] at hc
    rcases hheads c hc with h | h <;> simp [h]
  have h2 : (((M.Output d1.env).take k).map
      (cpCall (runArgs M H d1 t "" commandArgs).1)).filter (fun c => c.head? == some "rm")
        = [] := by
    rw [List.filter_eq_nil_iff]
    intro c hc
    simp [hcps c hc]
  simp only [List.filter_append, h1, h2, List.nil_append, List.append_nil]
  simp [List.filter]

theorem Run_removes_container_once_witness :
    build specContext (runFailEngine "[]") sampleHost { sampleFile with mode := "" } []
        = .ret sampleFile
            [["build", "-t", "proj:main", "-f", "Dockerfile.dapper", "."],
             inspectCall "proj:main"]
            ("proj:main", none)
      ∧ ∃ (name : String) (rest : List String) (cps : List Call),
        name = (runArgs specContext sampleHost sampleFile "proj:main" "" ["make"]).1
          ∧ (Run specContext (runFailEngine "[]") sampleHost sampleFile [] "" ["make"]).trace
            = [["build", "-t", "proj:main", "-f", "Dockerfile.dapper", "."],
               inspectCall "proj:main"]
              ++ ["run" :: "-i" :: "--name" :: name :: rest] ++ cps ++ [["rm", "-fv", name]]
          ∧ (∀ c ∈ cps, c.head? = some "cp")
          ∧ (Run specContext (runFailEngine "[]") sampleHost sampleFile [] ""
                ["make"]).trace.filter (fun c => c.head? == some "rm")
              = [["rm", "-fv", name]] :=
  ⟨by decide,
    Run_removes_container_once specContext (runFailEngine "[]") sampleHost sampleFile sampleFile
      _ "" "proj:main" ["make"] (by decide)⟩

/-- C8, the claim as stated fails: in copy mode the copy-out calls, the failing one
included, are issued before the container-removal call, which comes last; after the failed
copy of `dist` the path `out` is not copied. -/
theorem Run_copies_before_removal :
    Run specContext (cpFailEngine "[\"DAPPER_OUTPUT=bin dist out\"]") sampleHost sampleFile []
        "cp" ["make"]
      = .ret { sampleFile with mode := "cp", env := [("DAPPER_OUTPUT", "bin dist out")] }
          [["build", "-t", "proj:main", "-f", "Dockerfile.dapper", "."],
           ["inspect", "-f", "\x7b\x7bjson .ContainerConfig.Env\x7d\x7d", "proj:main"],
           ["build", "-t", "proj:main", "-f", "Dockerfile.dapper123", "."],
           ["run", "-i", "--name", "proj-abc", "-e", "DAPPER_UID=1000", "-e",
             "DAPPER_GID=1000", "proj:main", "make"],
           ["cp", "proj-abc:bin", "."],
           ["cp", "proj-abc:dist", "."],
           ["rm", "-fv", "proj-abc"]]
          (some "exit status 1") := by
  decide

/-- C8, amended: in every `Run` in which `build` succeeds, the container-removal call
`rm -fv <name>` is the last engine invocation and is not issued earlier; every copy-out call
`cp <name>:<path> .`, a failing one included, comes before it, after the run call. -/
theorem Run_removal_is_last (M : ContextMethods) (E : Engine) (H : Host)
    (d d1 : Dapperfile) (tr1 : List Call) (mode t name : String)
    (commandArgs args : List String)
    (hbuild : build M E H { d with mode := mode } [] = .ret d1 tr1 (t, none))
    (hargs : runArgs M H d1 t "" commandArgs = (name, args)) :
    ∃ k, k ≤ (M.Output d1.env).length
      ∧ (Run M E H d [] mode commandArgs).trace
          = tr1 ++ ["run" :: args] ++ ((M.Output d1.env).take k).map (cpCall name)
            ++ [rmCall name]
      ∧ rmCall name ∉ tr1 ++ ["run" :: args] ++ ((M.Output d1.env).take k).map (cpCall name) := by
  obtain ⟨k, hk, hk'⟩ := runBody_trace M E d1 tr1 name args
  obtain ⟨calls, hcalls, hheads⟩ := build_ret_calls hbuild
  refine ⟨k, hk, ?_, ?_⟩
  · rw [Run_of_build M E H d d1 [] tr1 mode t commandArgs hbuild, Outcome.trace, hargs]
    simp only [hk']
  · simp only [List.mem_append, List.mem_singleton, List.mem_map, not_or, not_exists, not_and]
    refine ⟨⟨?_, ?_⟩, ?_⟩
    · intro hmem
      rw [hcalls, List.nil_append] at hmem
      rcases hheads _ hmem with h | h <;> simp [rmCall] at h
    · simp [rmCall]
    · intro i _
      simp [rmCall, cpCall]

theorem Run_removal_is_last_witness :
    build specContext (cpFailEngine "[\"DAPPER_OUTPUT=bin dist out\"]") sampleHost
        { sampleFile with mode := "cp" } []
      = .ret { sampleFile with mode := "cp", env := [("DAPPER_OUTPUT", "bin dist out")] }
          [["build", "-t", "proj:main", "-f", "Dockerfile.dapper", "."],
           inspectCall "proj:main",
           ["build", "-t", "proj:main", "-f", "Dockerfile.dapper123", "."]]
          ("proj:main", none)
    ∧ runArgs specContext sampleHost
        { sampleFile with mode := "cp", env := [("DAPPER_OUTPUT", "bin dist out")] }
        "proj:main" "" ["make"]
      = ("proj-abc", ["-i", "--name", "proj-abc", "-e", "DAPPER_UID=1000", "-e",
          "DAPPER_GID=1000", "proj:main", "make"])
    ∧ ∃ k, k ≤ (specContext.Output [("DAPPER_OUTPUT", "bin dist out")]).length
      ∧ (Run specContext (cpFailEngine "[\"DAPPER_OUTPUT=bin dist out\"]") sampleHost sampleFile []
            "cp" ["make"]).trace
          = [["build", "-t", "proj:main", "-f", "Dockerfile.dapper", "."],
             inspectCall "proj:main",
             ["build", "-t", "proj:main", "-f", "Dockerfile.dapper123", "."]]
            ++ ["run" :: ["-i", "--name", "proj-abc", "-e", "DAPPER_UID=1000", "-e",
                  "DAPPER_GID=1000", "proj:main", "make"]]
            ++ ((specContext.Output [("DAPPER_OUTPUT", "bin dist out")]).take k).map
                (cpCall "proj-abc")
            ++ [rmCall "proj-abc"]
      ∧ rmCall "proj-abc" ∉
          [["build", "-t", "proj:main", "-f", "Dockerfile.dapper", "."],
             inspectCall "proj:main",
             ["build", "-t", "proj:main", "-f", "Dockerfile.dapper123", "."]]
            ++ ["run" :: ["-i", "--name", "proj-abc", "-e", "DAPPER_UID=1000", "-e",
                  "DAPPER_GID=1000", "proj:main", "make"]]
            ++ ((specContext.Output [("DAPPER_OUTPUT", "bin dist out")]).take k).map
                (cpCall "proj-abc") :=
  ⟨by decide, by decide,
    Run_removal_is_last specContext (cpFailEngine "[\"DAPPER_OUTPUT=bin dist out\"]") sampleHost
      sampleFile { sampleFile with mode := "cp", env := [("DAPPER_OUTPUT", "bin dist out")] }
      _ "cp" "proj:main" "proj-abc" ["make"] _ (by decide) (by decide)⟩

/-- The result of `Run` after a successful build and run step, in terms of `cpCall` and
`rmCall`. -/
theorem Run_copy_calls (M : ContextMethods) (E : Engine) (H : Host)
    (d d1 : Dapperfile) (tr tr1 : List Call) (mode t name : String)
    (commandArgs args : List String)
    (hbuild : build M E H { d with mode := mode } tr = .ret d1 tr1 (t, none))
    (hargs : runArgs M H d1 t "" commandArgs = (name, args))
    (hrun : E.status tr1 ("run" :: args) = none) :
    (IsBind M d1 = true →
        Run M E H d tr mode commandArgs
          = .ret d1 (tr1 ++ ["run" :: args] ++ [rmCall name]) none)
      ∧ (IsBind M d1 = false →
          (∀ (k : Nat) (i : String) (e : Error), (M.Output d1.env)[k]? = some i →
            (∀ j i', j < k → (M.Output d1.env)[j]? = some i' →
              E.status (tr1 ++ ["run" :: args] ++ ((M.Output d1.env).take j).map (cpCall name))
                (cpCall name i') = none) →
            E.status (tr1 ++ ["run" :: args] ++ ((M.Output d1.env).take k).map (cpCall name))
              (cpCall name i) = some e →
            Run M E H d tr mode commandArgs
              = .ret d1
                  (tr1 ++ ["run" :: args] ++ ((M.Output d1.env).take (k + 1)).map (cpCall name)
                    ++ [rmCall name])
                  (some e))
          ∧ ((∀ j i', (M.Output d1.env)[j]? = some i' →
              E.status (tr1 ++ ["run" :: args] ++ ((M.Output d1.env).take j).map (cpCall name))
                (cpCall name i') = none) →
            Run M E H d tr mode commandArgs
              = .ret d1
                  (tr1 ++ ["run" :: args] ++ (M.Output d1.env).map (cpCall name)
                    ++ [rmCall name])
                  none)) := by
  have hRun := Run_of_build M E H d d1 tr tr1 mode t commandArgs hbuild
  rw [hargs] at hRun
  simp only [runBody, run, exec, List.singleton_append, hrun] at hRun
  refine ⟨fun hb => ?_, fun hb => ⟨fun k i e hk hok hfail => ?_, fun hok => ?_⟩⟩
  · rw [hRun]
    simp [hb]
  · rw [hRun]
    simp only [hb, Bool.not_false, if_true]
    rw [copyOutputs_first_failure E name (tr1 ++ ["run" :: args]) (M.Output d1.env) k i e hk
      hok hfail]
  · rw [hRun]
    simp only [hb, Bool.not_false, if_true]
    rw [copyOutputs_all_ok E name (tr1 ++ ["run" :: args]) (M.Output d1.env) hok]

/-- C5: in every `Run` in which `build` and the engine run step succeed: in bind mode no
copy call is made (the run call is followed by the removal `rm -fv <name>` only); otherwise
the copy calls `cp <name>:<path> .` are issued for the descriptor's output paths in order, up
to and including the first one that fails, no copy is attempted for a later path, and `Run`
returns that first failure; it returns success, after a copy call for every output path,
when every copy succeeds. -/
theorem Run_output_extraction (M : ContextMethods) (E : Engine) (H : Host)
    (d d1 : Dapperfile) (tr tr1 : List Call) (mode t name : String)
    (commandArgs args : List String)
    (hbuild : build M E H { d with mode := mode } tr = .ret d1 tr1 (t, none))
    (hargs : runArgs M H d1 t "" commandArgs = (name, args))
    (hrun : E.status tr1 ("run" :: args) = none) :
    (IsBind M d1 = true →
        Run M E H d tr mode commandArgs
          = .ret d1 (tr1 ++ ["run" :: args] ++ [["rm", "-fv", name]]) none)
      ∧ (IsBind M d1 = false →
          (∀ (k : Nat) (i : String) (e : Error), (M.Output d1.env)[k]? = some i →
            (∀ j i', j < k → (M.Output d1.env)[j]? = some i' →
              E.status
                (tr1 ++ ["run" :: args]
                  ++ ((M.Output d1.env).take j).map (fun o => ["cp", name ++ ":" ++ o, "."]))
                ["cp", name ++ ":" ++ i', "."] = none) →
            E.status
              (tr1 ++ ["run" :: args]
                ++ ((M.Output d1.env).take k).map (fun o => ["cp", name ++ ":" ++ o, "."]))
              ["cp", name ++ ":" ++ i, "."] = some e →
            Run M E H d tr mode commandArgs
              = .ret d1
                  (tr1 ++ ["run" :: args]
                    ++ ((M.Output d1.env).take (k + 1)).map
                        (fun o => ["cp", name ++ ":" ++ o, "."])
                    ++ [["rm", "-fv", name]])
                  (some e))
          ∧ ((∀ j i', (M.Output d1.env)[j]? = some i' →
              E.status
                (tr1 ++ ["run" :: args]
                  ++ ((M.Output d1.env).take j).map (fun o => ["cp", name ++ ":" ++ o, "."]))
                ["cp", name ++ ":" ++ i', "."] = none) →
            Run M E H d tr mode commandArgs
              = .ret d1
                  (tr1 ++ ["run" :: args]
                    ++ (M.Output d1.env).map (fun o => ["cp", name ++ ":" ++ o, "."])
                    ++ [["rm", "-fv", name]])
                  none)) :=
  Run_copy_calls M E H d d1 tr tr1 mode t name commandArgs args hbuild hargs hrun

theorem Run_output_extraction_witness :
    build specContext (cpFailEngine "[\"DAPPER_OUTPUT=bin dist out\"]") sampleHost
        { sampleFile with mode := "cp" } []
      = .ret { sampleFile with mode := "cp", env := [("DAPPER_OUTPUT", "bin dist out")] }
          [["build", "-t", "proj:main", "-f", "Dockerfile.dapper", "."],
           ["inspect", "-f", "\x7b\x7bjson .ContainerConfig.Env\x7d\x7d", "proj:main"],
           ["build", "-t", "proj:main", "-f", "Dockerfile.dapper123", "."]]
          ("proj:main", none)
    ∧ runArgs specContext sampleHost
        { sampleFile with mode := "cp", env := [("DAPPER_OUTPUT", "bin dist out")] }
        "proj:main" "" ["make"]
      = ("proj-abc", ["-i", "--name", "proj-abc", "-e", "DAPPER_UID=1000", "-e",
          "DAPPER_GID=1000", "proj:main", "make"])
    ∧ (cpFailEngine "[\"DAPPER_OUTPUT=bin dist out\"]").status
        [["build", "-t", "proj:main", "-f", "Dockerfile.dapper", "."],
         ["inspect", "-f", "\x7b\x7bjson .ContainerConfig.Env\x7d\x7d", "proj:main"],
         ["build", "-t", "proj:main", "-f", "Dockerfile.dapper123", "."]]
        ("run" :: ["-i", "--name", "proj-abc", "-e", "DAPPER_UID=1000", "-e",
          "DAPPER_GID=1000", "proj:main", "make"]) = none
    ∧ Run specContext (cpFailEngine "[\"DAPPER_OUTPUT=bin dist out\"]") sampleHost sampleFile []
        "cp" ["make"]
      = .ret { sampleFile with mode := "cp", env := [("DAPPER_OUTPUT", "bin dist out")] }
          [["build", "-t", "proj:main", "-f", "Dockerfile.dapper", "."],
           ["inspect", "-f", "\x7b\x7bjson .ContainerConfig.Env\x7d\x7d", "proj:main"],
           ["build", "-t", "proj:main", "-f", "Dockerfile.dapper123", "."],
           ["run", "-i", "--name", "proj-abc", "-e", "DAPPER_UID=1000", "-e",
             "DAPPER_GID=1000", "proj:main", "make"],
           ["cp", "proj-abc:bin", "."],
           ["cp", "proj-abc:dist", "."],
           ["rm", "-fv", "proj-abc"]]
          (some "exit status 1") :=
  ⟨by decide, by decide, rfl,
    ((Run_output_extraction specContext (cpFailEngine "[\"DAPPER_OUTPUT=bin dist out\"]")
      sampleHost sampleFile
      { sampleFile with mode := "cp", env := [("DAPPER_OUTPUT", "bin dist out")] }
      []
      [["build", "-t", "proj:main", "-f", "Dockerfile.dapper", "."],
       ["inspect", "-f", "\x7b\x7bjson .ContainerConfig.Env\x7d\x7d", "proj:main"],
       ["build", "-t", "proj:main", "-f", "Dockerfile.dapper123", "."]]
      "cp" "proj:main" "proj-abc" ["make"]
      ["-i", "--name", "proj-abc", "-e", "DAPPER_UID=1000", "-e", "DAPPER_GID=1000",
        "proj:main", "make"]
      (by decide) (by decide) rfl).2
        (by decide)).1 1 "dist" "exit status 1" (by decide)
        (fun j i' hj hji => by
          obtain rfl : j = 0 := by omega
          have h0 : (specContext.Output [("DAPPER_OUTPUT", "bin dist out")])[0]? = some "bin" := by
            decide
          rw [h0] at hji
          cases hji
          decide)
        (by decide)⟩

/-! ## Facts about `Shell` and `readEnv` -/

/-- C9: evaluation of `Shell` with the command arguments `["echo", "hi"]` and the configured
shell `/bin/bash`: the run invocation ends, after the image tag, with the single literal
`-`, not with the command arguments; `Shell` assembles the run arguments for an empty
command-argument list whatever it is given. -/
theorem Shell_drops_commandArgs :
    Shell specContext (okEngine "[]") sampleHost sampleFile [] "" ["echo", "hi"]
        = .ret sampleFile
            [["build", "-t", "proj:main", "-f", "Dockerfile.dapper", "."],
             ["inspect", "-f", "\x7b\x7bjson .ContainerConfig.Env\x7d\x7d", "proj:main"],
             ["run", "--rm", "-i", "--name", "proj-abc", "-v", "/home/u/proj/.:/source/",
               "-e", "DAPPER_UID=1000", "-e", "DAPPER_GID=1000", "--entrypoint", "/bin/bash",
               "-e", "TERM", "proj:main", "-"]]
            none
      ∧ specContext.Shell sampleFile.env = "/bin/bash"
      ∧ (runArgs specContext sampleHost sampleFile "proj:main" "/bin/bash"
            ["echo", "hi"]).2
          = ["-i", "--name", "proj-abc", "-v", "/home/u/proj/.:/source/",
               "-e", "DAPPER_UID=1000", "-e", "DAPPER_GID=1000", "--entrypoint", "/bin/bash",
               "-e", "TERM", "proj:main", "echo", "hi"]
      ∧ ∀ (M : ContextMethods) (E : Engine) (H : Host) (d : Dapperfile) (tr : List Call)
          (mode : String) (commandArgs : List String),
          Shell M E H d tr mode commandArgs = Shell M E H d tr mode [] :=
  ⟨by decide, by decide, by decide, fun _ _ _ _ _ _ _ => rfl⟩

/-- The loop of `readEnv` panics exactly when some element holds no `=`. -/
theorem readEnvLoop_panics_iff (env : Context) (items : List String) :
    (∃ env1, readEnvLoop env items = .indexOutOfRange env1)
      ↔ ∃ item ∈ items, '=' ∉ item.data := by
  induction items generalizing env with
  | nil => simp [readEnvLoop]
  | cons item rest ih =>
    simp only [readEnvLoop, SplitN2, List.mem_cons, exists_eq_or_imp]
    cases hdrop : item.data.dropWhile (fun c => c != '=') with
    | nil =>
      have hall := List.dropWhile_eq_nil_iff.mp hdrop
      have hno : '=' ∉ item.data := fun hmem => by simpa using hall _ hmem
      simp [hno]
    | cons c after =>
      have hyes : '=' ∈ item.data := by
        by_contra hno
        have : item.data.dropWhile (fun c => c != '=') = [] := by
          rw [List.dropWhile_eq_nil_iff]
          intro x hx
          simp only [bne_iff_ne, ne_eq]
          rintro rfl
          exact hno hx
        rw [this] at hdrop
        exact absurd hdrop (by simp)
      simp [hyes, ih]

/-- C10: `readEnv` does not return an error when the inspect payload decodes to a list
holding an element without `=`: the access `parts[1]` is out of range and the method ends in
a run-time panic, after its inspect call. -/
theorem readEnv_panics_without_equals (E : Engine) (H : Host) (d : Dapperfile)
    (tr : List Call) (tag item : String) (items : List String)
    (hstatus : E.status tr (inspectCall tag) = none)
    (hdecode : H.unmarshal (E.output tr (inspectCall tag)) = .ok items)
    (hmem : item ∈ items) (hno : '=' ∉ item.data) :
    ∃ env1, readEnv E H d tr tag
      = .crashed { d with env := env1 } (tr ++ [inspectCall tag]) := by
  obtain ⟨env1, hloop⟩ := (readEnvLoop_panics_iff [] items).mpr ⟨item, hmem, hno⟩
  exact ⟨env1, by simp only [readEnv, execWithOutput, hstatus, hdecode, hloop]⟩

theorem readEnv_panics_without_equals_witness :
    (okEngine "[\"A=1\",\"FOO\"]").status [] (inspectCall "proj:main") = none
      ∧ sampleHost.unmarshal ((okEngine "[\"A=1\",\"FOO\"]").output [] (inspectCall "proj:main"))
          = .ok ["A=1", "FOO"]
      ∧ "FOO" ∈ ["A=1", "FOO"] ∧ '=' ∉ "FOO".data
      ∧ ∃ env1, readEnv (okEngine "[\"A=1\",\"FOO\"]") sampleHost sampleFile [] "proj:main"
          = .crashed { sampleFile with env := env1 } ([] ++ [inspectCall "proj:main"]) :=
  ⟨rfl, rfl, by decide, by decide,
    readEnv_panics_without_equals (okEngine "[\"A=1\",\"FOO\"]") sampleHost sampleFile []
      "proj:main" "FOO" ["A=1", "FOO"] rfl rfl (by decide) (by decide)⟩

end Dapper
